import Mathlib

/-!
Verification of `fermats_near_miss.py`: a brute-force search for "near
misses" of Fermat's Last Theorem.  The program enumerates pairs
`(x, y)` with `10 ≤ x, y ≤ k`, brackets `x^n + y^n` between consecutive
`n`-th powers `z^n` and `(z+1)^n`, and tracks the candidate with the
smallest relative miss.

Modelling conventions:
* Python integers are unbounded, so they are embedded as `Nat`/`Int`.
* The floating-point `n`-th-root estimate `int(sum_value ** (1/n))` in
  `calculate_z_value` is modelled as the exact floor of the real `n`-th
  root, i.e. the largest natural `r` with `r ^ n ≤ sum_value`
  (`nthRootFloor`); the float-specific overflow/rounding behaviour is
  outside the embedding.
* Python float division producing `relative_miss` is modelled as exact
  division in `ℚ`; the `float('inf')` sentinel for the running best is
  modelled as `⊤` in `WithTop ℚ`.
* Console output and timing are side effects with no bearing on the
  computed values and are omitted.
-/

/-- Helper for `nthRootFloor`: scan `k, k-1, …, 1` downward and return the
first (largest) value whose `n`-th power is at most `s`, or `0` if none. -/
def nthRootAux (n s : Nat) : Nat → Nat
  | 0 => 0
  | k + 1 => if (k + 1) ^ n ≤ s then k + 1 else nthRootAux n s k

/-- The integer floor of the real `n`-th root of `s`: the largest natural
number `r` with `r ^ n ≤ s`.  This is the idealised value of the Python
expression `int(sum_value ** (1/n))` in `calculate_z_value`. -/
def nthRootFloor (n s : Nat) : Nat := nthRootAux n s s

/-- Embedding of `calculate_z_value(sum_value, n)` (src/fermats_near_miss.py,
lines 29–48): take the floor of the `n`-th root of `sum_value`; if its `n`-th
power is still `≥ sum_value`, decrement by one.  Python integers can go
negative after the decrement, hence the `Int` result. -/
def calculate_z_value (sum_value n : Nat) : Int :=
  let z := nthRootFloor n sum_value
  if sum_value ≤ z ^ n then (z : Int) - 1 else (z : Int)

/-- Embedding of `calculate_miss(x, y, z, n)` (src/fermats_near_miss.py,
lines 51–74): recompute `sum = x^n + y^n`, form the lower and upper misses,
and return `(absolute_miss, relative_miss, is_lower_z)` selecting the smaller
miss, ties going to the lower bracket. -/
def calculate_miss (x y : Nat) (z : Int) (n : Nat) : Int × ℚ × Bool :=
  let sum_value : Int := (x : Int) ^ n + (y : Int) ^ n
  let lower_miss := sum_value - z ^ n
  let upper_miss := (z + 1) ^ n - sum_value
  if lower_miss ≤ upper_miss then
    (lower_miss, (lower_miss : ℚ) / (sum_value : ℚ), true)
  else
    (upper_miss, (upper_miss : ℚ) / (sum_value : ℚ), false)

/-- The mutable state of the search loop in `find_near_misses`
(src/fermats_near_miss.py, lines 88–137): the running best relative miss
(`float('inf')` sentinel modelled as `⊤`), the best record
`(x, y, best_z, abs_miss, rel_miss)` (`None` modelled as `none`), and the
`combinations_checked` counter. -/
structure SearchState where
  best_relative_miss : WithTop ℚ
  best_result : Option (Nat × Nat × Int × Int × ℚ)
  combinations_checked : Nat
deriving Repr

/-- One iteration of the inner loop body of `find_near_misses`
(src/fermats_near_miss.py, lines 104–128): count the candidate, compute the
sum, bracket it, evaluate the miss, and update the best record when the
relative miss strictly improves on the current best. -/
def process_candidate (n : Nat) (st : SearchState) (xy : Nat × Nat) : SearchState :=
  let x := xy.1
  let y := xy.2
  let sum_value := x ^ n + y ^ n
  let z := calculate_z_value sum_value n
  let r := calculate_miss x y z n
  let abs_miss := r.1
  let rel_miss := r.2.1
  let is_lower_z := r.2.2
  let checked := st.combinations_checked + 1
  if (rel_miss : WithTop ℚ) < st.best_relative_miss then
    ⟨(rel_miss : WithTop ℚ),
     some (x, y, (if is_lower_z then z else z + 1), abs_miss, rel_miss),
     checked⟩
  else
    ⟨st.best_relative_miss, st.best_result, checked⟩

/-- The enumeration order of `find_near_misses`: `x` from `10` to `k`
inclusive and, for each `x`, `y` from `10` to `k` inclusive
(src/fermats_near_miss.py, lines 102–103). -/
def candidate_list (k : Nat) : List (Nat × Nat) :=
  (List.range' 10 (k - 9)).flatMap (fun x => (List.range' 10 (k - 9)).map (fun y => (x, y)))

/-- Embedding of the computational content of `find_near_misses(n, k)`
(src/fermats_near_miss.py, lines 77–157): fold the loop body over the full
candidate grid starting from the initial state (infinite sentinel, no best
result, zero candidates checked). -/
def find_near_misses (n k : Nat) : SearchState :=
  (candidate_list k).foldl (process_candidate n) ⟨⊤, none, 0⟩

/-- The relative miss the loop computes for a single candidate `(x, y)`:
bracket the sum with `calculate_z_value`, then take the relative miss
from `calculate_miss`. -/
def candidate_rel_miss (n x y : Nat) : ℚ :=
  (calculate_miss x y (calculate_z_value (x ^ n + y ^ n) n) n).2.1

/-! ### Properties of the integer `n`-th root -/

theorem nthRootAux_pow_le (n s : Nat) (hn : n ≠ 0) :
    ∀ k, (nthRootAux n s k) ^ n ≤ s := by
  intro k
  induction k with
  | zero => simp [nthRootAux, zero_pow hn]
  | succ k ih =>
    rw [nthRootAux]
    split
    · assumption
    · exact ih

theorem le_nthRootAux (n s : Nat) :
    ∀ k z, z ≤ k → z ^ n ≤ s → z ≤ nthRootAux n s k := by
  intro k
  induction k with
  | zero => intro z hz _; simpa [nthRootAux] using hz
  | succ k ih =>
    intro z hz hpow
    rw [nthRootAux]
    split
    · exact hz
    · rcases Nat.lt_or_ge z (k + 1) with h | h
      · exact ih z (Nat.lt_succ_iff.mp h) hpow
      · exact absurd hpow (by have : z = k + 1 := le_antisymm hz h; simp [this, *])

theorem nthRootFloor_pow_le (n s : Nat) (hn : n ≠ 0) :
    (nthRootFloor n s) ^ n ≤ s :=
  nthRootAux_pow_le n s hn s

theorem le_nthRootFloor (n s z : Nat) (hn : n ≠ 0) (hz : z ^ n ≤ s) :
    z ≤ nthRootFloor n s := by
  refine le_nthRootAux n s s z ?_ hz
  calc z ≤ z ^ n := Nat.le_self_pow hn z
    _ ≤ s := hz

theorem nthRootFloor_lt (n s : Nat) (hn : n ≠ 0) :
    s < (nthRootFloor n s + 1) ^ n := by
  by_contra h
  push_neg at h
  have := le_nthRootFloor n s (nthRootFloor n s + 1) hn h
  omega

theorem nthRootFloor_pos (n s : Nat) (hn : n ≠ 0) (hs : 1 ≤ s) :
    1 ≤ nthRootFloor n s :=
  le_nthRootFloor n s 1 hn (by simpa using hs)

theorem nthRootFloor_pow (w n : Nat) (hn : n ≠ 0) :
    nthRootFloor n (w ^ n) = w := by
  refine le_antisymm ?_ (le_nthRootFloor n (w ^ n) w hn le_rfl)
  by_contra h
  push_neg at h
  have h1 : w + 1 ≤ nthRootFloor n (w ^ n) := h
  have h2 : (w + 1) ^ n ≤ (nthRootFloor n (w ^ n)) ^ n :=
    Nat.pow_le_pow_left h1 n
  have h3 : (nthRootFloor n (w ^ n)) ^ n ≤ w ^ n := nthRootFloor_pow_le n _ hn
  have h4 : w ^ n < (w + 1) ^ n := Nat.pow_lt_pow_left (Nat.lt_succ_self w) hn
  omega

set_option maxRecDepth 40000

/-! ### Claim theorems: the bracketing function -/

/-- C1: for every positive integer `sum_value` and every exponent `n` with
`3 ≤ n ≤ 11`, `calculate_z_value sum_value n` returns `z` with
`z ^ n < sum_value`, and whenever `sum_value` is not an exact `n`-th power,
`(z + 1) ^ n > sum_value` as well. -/
theorem C1_calculate_z_value_brackets (sum_value n : Nat)
    (hs : 0 < sum_value) (hn3 : 3 ≤ n) (hn11 : n ≤ 11) :
    calculate_z_value sum_value n ^ n < (sum_value : Int) ∧
    ((∀ w : Nat, w ^ n ≠ sum_value) →
      (sum_value : Int) < (calculate_z_value sum_value n + 1) ^ n) := by
  have hn : n ≠ 0 := by omega
  have hr1 : 1 ≤ nthRootFloor n sum_value := nthRootFloor_pos n sum_value hn hs
  have hle : (nthRootFloor n sum_value) ^ n ≤ sum_value := nthRootFloor_pow_le n sum_value hn
  have hlt : sum_value < (nthRootFloor n sum_value + 1) ^ n := nthRootFloor_lt n sum_value hn
  simp only [calculate_z_value]
  split
  · -- the correction step fired: sum_value ≤ r ^ n, so r ^ n = sum_value
    rename_i hcond
    have heq : (nthRootFloor n sum_value) ^ n = sum_value := le_antisymm hle hcond
    constructor
    · have hcast : ((nthRootFloor n sum_value : ℤ)) - 1
          = ((nthRootFloor n sum_value - 1 : ℕ) : ℤ) := by omega
      rw [hcast]
      have hstep : (nthRootFloor n sum_value - 1) ^ n < sum_value := by
        calc (nthRootFloor n sum_value - 1) ^ n
            < (nthRootFloor n sum_value) ^ n := Nat.pow_lt_pow_left (by omega) hn
          _ = sum_value := heq
      exact_mod_cast hstep
    · intro hno
      exact absurd heq (hno _)
  · rename_i hcond
    push_neg at hcond
    constructor
    · exact_mod_cast hcond
    · intro _
      exact_mod_cast hlt

/-- Witness for C1 at `sum_value = 2000`, `n = 3`. -/
theorem C1_witness :
    0 < 2000 ∧ 3 ≤ 3 ∧ 3 ≤ 11 ∧
    (calculate_z_value 2000 3 ^ 3 < (2000 : Int) ∧
      ((∀ w : Nat, w ^ 3 ≠ 2000) →
        (2000 : Int) < (calculate_z_value 2000 3 + 1) ^ 3)) :=
  ⟨by decide, by decide, by decide,
    C1_calculate_z_value_brackets 2000 3 (by decide) (by decide) (by decide)⟩

/-- C3: for every exact `n`-th power `sum_value = w ^ n` (`w > 0`,
`3 ≤ n ≤ 11`), `calculate_z_value (w ^ n) n` returns a `z` strictly below the
exact root `w`, with `z ^ n < w ^ n` still holding and
`(z + 1) ^ n ≤ w ^ n` (the bracket excludes the exact match). -/
theorem C3_calculate_z_value_exact_power (w n : Nat)
    (hw : 0 < w) (hn3 : 3 ≤ n) (hn11 : n ≤ 11) :
    calculate_z_value (w ^ n) n < (w : Int) ∧
    calculate_z_value (w ^ n) n ^ n < ((w ^ n : Nat) : Int) ∧
    (calculate_z_value (w ^ n) n + 1) ^ n ≤ ((w ^ n : Nat) : Int) := by
  have hn : n ≠ 0 := by omega
  have hroot : nthRootFloor n (w ^ n) = w := nthRootFloor_pow w n hn
  have hz : calculate_z_value (w ^ n) n = (w : Int) - 1 := by
    simp only [calculate_z_value, hroot]
    rw [if_pos le_rfl]
  rw [hz]
  refine ⟨by omega, ?_, ?_⟩
  · have hcast : ((w : ℤ)) - 1 = ((w - 1 : ℕ) : ℤ) := by omega
    rw [hcast]
    have hstep : (w - 1) ^ n < w ^ n := Nat.pow_lt_pow_left (by omega) hn
    exact_mod_cast hstep
  · have harith : (w : ℤ) - 1 + 1 = (w : ℤ) := by ring
    rw [harith]
    push_cast
    exact le_rfl

/-- Witness for C3 at `w = 12`, `n = 3`. -/
theorem C3_witness :
    (0 : Nat) < 12 ∧ 3 ≤ 3 ∧ 3 ≤ 11 ∧
    (calculate_z_value (12 ^ 3) 3 < (12 : Int) ∧
      calculate_z_value (12 ^ 3) 3 ^ 3 < ((12 ^ 3 : Nat) : Int) ∧
      (calculate_z_value (12 ^ 3) 3 + 1) ^ 3 ≤ ((12 ^ 3 : Nat) : Int)) :=
  ⟨by decide, by decide, by decide,
    C3_calculate_z_value_exact_power 12 3 (by decide) (by decide) (by decide)⟩

/-- C8: the concrete scenario for `n = 3`, `x = 10`, `y = 10`: the sum is
`2000`; `calculate_z_value 2000 3 = 12` (with `12 ^ 3 = 1728 < 2000 < 2197 =
13 ^ 3`); `calculate_miss 10 10 12 3` gives lower miss `272`, upper miss
`197`, `closerToLower = false`, absolute miss `197`, and relative miss
`197 / 2000 = 0.0985`. -/
theorem C8_concrete_scenario :
    (10 : Nat) ^ 3 + (10 : Nat) ^ 3 = 2000 ∧
    calculate_z_value 2000 3 = 12 ∧
    ((12 : Int) ^ 3 = 1728 ∧ (1728 : Int) < 2000) ∧
    ((13 : Int) ^ 3 = 2197 ∧ (2000 : Int) < 2197) ∧
    ((2000 : Int) - 12 ^ 3 = 272 ∧ (13 : Int) ^ 3 - 2000 = 197) ∧
    calculate_miss 10 10 12 3 = (197, 197 / 2000, false) ∧
    (197 / 2000 : ℚ) = 0.0985 := by
  refine ⟨by norm_num, by decide, by norm_num, by norm_num, by norm_num,
    ?_, by norm_num⟩
  norm_num [calculate_miss]

/-! ### Claim theorems: the miss evaluator -/

/-- A bracketing `z` for a sum of at least `2` is positive: if `z ≤ 0` then
`(z + 1) ^ n` is at most `1` (for `z ∈ {-1, 0}`), nonpositive (odd `n`,
`z + 1 < 0`), or below `z ^ n` (even `n`, `z + 1 < 0`), each contradicting
`z ^ n < S < (z + 1) ^ n`. -/
theorem bracket_z_pos (z : Int) (n : Nat) (S : Int) (hn : n ≠ 0) (hS : 2 ≤ S)
    (hlo : z ^ n < S) (hhi : S < (z + 1) ^ n) : 1 ≤ z := by
  by_contra h
  push_neg at h
  have hz0 : z ≤ 0 := by omega
  rcases eq_or_lt_of_le hz0 with h0 | hneg
  · rw [h0] at hhi
    simp at hhi
    omega
  · have hz1 : z + 1 ≤ 0 := by omega
    rcases Nat.even_or_odd n with he | ho
    · have habs : |z + 1| < |z| := by
        rw [abs_of_nonpos hz1, abs_of_nonpos hz0]
        omega
      have hpow : (z + 1) ^ n < z ^ n := by
        rw [← he.pow_abs (z + 1), ← he.pow_abs z]
        exact pow_lt_pow_left₀ habs (abs_nonneg _) hn
      omega
    · have hpow : (z + 1) ^ n ≤ 0 := ho.pow_nonpos hz1
      omega

/-- C2: for `x, y ≥ 10`, `3 ≤ n ≤ 11` and a bracketing `z`
(`z ^ n < x ^ n + y ^ n < (z + 1) ^ n`), `calculate_miss x y z n` returns an
absolute miss equal to `min (sum - z ^ n) ((z + 1) ^ n - sum)`, which is
non-negative, and a relative miss equal to the absolute miss divided by the
freshly recomputed sum `x ^ n + y ^ n`, lying in `[0, 1)`. -/
theorem C2_calculate_miss_correct (x y : Nat) (z : Int) (n : Nat)
    (hx : 10 ≤ x) (hy : 10 ≤ y) (hn3 : 3 ≤ n) (hn11 : n ≤ 11)
    (hlo : z ^ n < (x : Int) ^ n + (y : Int) ^ n)
    (hhi : (x : Int) ^ n + (y : Int) ^ n < (z + 1) ^ n) :
    (calculate_miss x y z n).1
        = min ((x : Int) ^ n + (y : Int) ^ n - z ^ n)
            ((z + 1) ^ n - ((x : Int) ^ n + (y : Int) ^ n)) ∧
    0 ≤ (calculate_miss x y z n).1 ∧
    (calculate_miss x y z n).2.1
        = ((calculate_miss x y z n).1 : ℚ)
            / (((x : Int) ^ n + (y : Int) ^ n : Int) : ℚ) ∧
    0 ≤ (calculate_miss x y z n).2.1 ∧
    (calculate_miss x y z n).2.1 < 1 := by
  have hn : n ≠ 0 := by omega
  have hx1 : (1 : ℤ) ≤ (x : ℤ) ^ n := by
    calc (1 : ℤ) = 1 ^ n := (one_pow n).symm
      _ ≤ (x : ℤ) ^ n := by
          refine pow_le_pow_left₀ (by norm_num) ?_ n
          exact_mod_cast (by omega : 1 ≤ x)
  have hy1 : (1 : ℤ) ≤ (y : ℤ) ^ n := by
    calc (1 : ℤ) = 1 ^ n := (one_pow n).symm
      _ ≤ (y : ℤ) ^ n := by
          refine pow_le_pow_left₀ (by norm_num) ?_ n
          exact_mod_cast (by omega : 1 ≤ y)
  have hS2 : (2 : ℤ) ≤ (x : Int) ^ n + (y : Int) ^ n := by omega
  have hz1 : 1 ≤ z := bracket_z_pos z n _ hn hS2 hlo hhi
  have hzn : (1 : ℤ) ≤ z ^ n := by
    calc (1 : ℤ) = 1 ^ n := (one_pow n).symm
      _ ≤ z ^ n := pow_le_pow_left₀ (by norm_num) hz1 n
  have hSpos : (0 : ℚ) < (((x : Int) ^ n + (y : Int) ^ n : Int) : ℚ) := by
    exact_mod_cast (by omega : (0 : ℤ) < (x : Int) ^ n + (y : Int) ^ n)
  simp only [calculate_miss]
  split
  · rename_i hcond
    refine ⟨(min_eq_left hcond).symm, by omega, rfl, ?_, ?_⟩
    · apply div_nonneg _ (le_of_lt hSpos)
      exact_mod_cast (by omega : (0 : ℤ) ≤ (x : Int) ^ n + (y : Int) ^ n - z ^ n)
    · rw [div_lt_one hSpos]
      exact_mod_cast (by omega :
        (x : Int) ^ n + (y : Int) ^ n - z ^ n < (x : Int) ^ n + (y : Int) ^ n)
  · rename_i hcond
    push_neg at hcond
    refine ⟨(min_eq_right (le_of_lt hcond)).symm, by omega, rfl, ?_, ?_⟩
    · apply div_nonneg _ (le_of_lt hSpos)
      exact_mod_cast (by omega : (0 : ℤ) ≤ (z + 1) ^ n - ((x : Int) ^ n + (y : Int) ^ n))
    · rw [div_lt_one hSpos]
      exact_mod_cast (by omega :
        (z + 1) ^ n - ((x : Int) ^ n + (y : Int) ^ n) < (x : Int) ^ n + (y : Int) ^ n)

/-- Witness for C2 at `x = 10`, `y = 10`, `z = 12`, `n = 3`. -/
theorem C2_witness :
    (10 ≤ 10 ∧ 3 ≤ 3 ∧ 3 ≤ 11 ∧
      (12 : Int) ^ 3 < ((10 : Nat) : Int) ^ 3 + ((10 : Nat) : Int) ^ 3 ∧
      ((10 : Nat) : Int) ^ 3 + ((10 : Nat) : Int) ^ 3 < ((12 : Int) + 1) ^ 3) ∧
    ((calculate_miss 10 10 12 3).1
        = min (((10 : Nat) : Int) ^ 3 + ((10 : Nat) : Int) ^ 3 - (12 : Int) ^ 3)
            (((12 : Int) + 1) ^ 3 - (((10 : Nat) : Int) ^ 3 + ((10 : Nat) : Int) ^ 3)) ∧
      0 ≤ (calculate_miss 10 10 12 3).1 ∧
      (calculate_miss 10 10 12 3).2.1
          = ((calculate_miss 10 10 12 3).1 : ℚ)
              / ((((10 : Nat) : Int) ^ 3 + ((10 : Nat) : Int) ^ 3 : Int) : ℚ) ∧
      0 ≤ (calculate_miss 10 10 12 3).2.1 ∧
      (calculate_miss 10 10 12 3).2.1 < 1) :=
  ⟨⟨by norm_num, by norm_num, by norm_num, by norm_num, by norm_num⟩,
    C2_calculate_miss_correct 10 10 12 3 (by norm_num) (by norm_num)
      (by norm_num) (by norm_num) (by norm_num) (by norm_num)⟩

/-- C4: under the bracketing hypothesis, whenever the lower miss
`sum - z ^ n` is at most the upper miss `(z + 1) ^ n - sum` (ties included),
`calculate_miss` reports `closerToLower = true` and selects the lower miss;
otherwise it reports `closerToLower = false` and selects the upper miss. -/
theorem C4_calculate_miss_tie_break (x y : Nat) (z : Int) (n : Nat)
    (hlo : z ^ n < (x : Int) ^ n + (y : Int) ^ n)
    (hhi : (x : Int) ^ n + (y : Int) ^ n < (z + 1) ^ n) :
    ((x : Int) ^ n + (y : Int) ^ n - z ^ n
        ≤ (z + 1) ^ n - ((x : Int) ^ n + (y : Int) ^ n) →
      (calculate_miss x y z n).2.2 = true ∧
      (calculate_miss x y z n).1 = (x : Int) ^ n + (y : Int) ^ n - z ^ n) ∧
    ((z + 1) ^ n - ((x : Int) ^ n + (y : Int) ^ n)
        < (x : Int) ^ n + (y : Int) ^ n - z ^ n →
      (calculate_miss x y z n).2.2 = false ∧
      (calculate_miss x y z n).1
        = (z + 1) ^ n - ((x : Int) ^ n + (y : Int) ^ n)) := by
  simp only [calculate_miss]
  constructor
  · intro hle
    rw [if_pos hle]
    exact ⟨rfl, rfl⟩
  · intro hlt
    rw [if_neg (not_le.mpr hlt)]
    exact ⟨rfl, rfl⟩

/-- Witness for C4 at `x = 10`, `y = 10`, `z = 12`, `n = 3`. -/
theorem C4_witness :
    ((12 : Int) ^ 3 < ((10 : Nat) : Int) ^ 3 + ((10 : Nat) : Int) ^ 3 ∧
      ((10 : Nat) : Int) ^ 3 + ((10 : Nat) : Int) ^ 3 < ((12 : Int) + 1) ^ 3) ∧
    ((((10 : Nat) : Int) ^ 3 + ((10 : Nat) : Int) ^ 3 - (12 : Int) ^ 3
        ≤ ((12 : Int) + 1) ^ 3 - (((10 : Nat) : Int) ^ 3 + ((10 : Nat) : Int) ^ 3) →
      (calculate_miss 10 10 12 3).2.2 = true ∧
      (calculate_miss 10 10 12 3).1
        = ((10 : Nat) : Int) ^ 3 + ((10 : Nat) : Int) ^ 3 - (12 : Int) ^ 3) ∧
    (((12 : Int) + 1) ^ 3 - (((10 : Nat) : Int) ^ 3 + ((10 : Nat) : Int) ^ 3)
        < ((10 : Nat) : Int) ^ 3 + ((10 : Nat) : Int) ^ 3 - (12 : Int) ^ 3 →
      (calculate_miss 10 10 12 3).2.2 = false ∧
      (calculate_miss 10 10 12 3).1
        = ((12 : Int) + 1) ^ 3 - (((10 : Nat) : Int) ^ 3 + ((10 : Nat) : Int) ^ 3))) :=
  ⟨⟨by norm_num, by norm_num⟩,
    C4_calculate_miss_tie_break 10 10 12 3 (by norm_num) (by norm_num)⟩

/-! ### Loop-body and fold lemmas for the search driver -/

theorem process_candidate_count (n : Nat) (st : SearchState) (xy : Nat × Nat) :
    (process_candidate n st xy).combinations_checked
      = st.combinations_checked + 1 := by
  simp only [process_candidate]
  split <;> rfl

theorem process_candidate_best_le (n : Nat) (st : SearchState) (xy : Nat × Nat) :
    (process_candidate n st xy).best_relative_miss ≤ st.best_relative_miss := by
  simp only [process_candidate]
  split
  · rename_i h
    exact le_of_lt h
  · exact le_rfl

theorem process_candidate_le_rel (n : Nat) (st : SearchState) (xy : Nat × Nat) :
    (process_candidate n st xy).best_relative_miss
      ≤ ((candidate_rel_miss n xy.1 xy.2 : ℚ) : WithTop ℚ) := by
  simp only [process_candidate, candidate_rel_miss]
  split
  · exact le_rfl
  · rename_i h
    exact not_lt.mp h

theorem process_candidate_isSome (n : Nat) (st : SearchState) (xy : Nat × Nat)
    (h : st.best_result.isSome = true) :
    (process_candidate n st xy).best_result.isSome = true := by
  simp only [process_candidate]
  split
  · rfl
  · exact h

theorem process_candidate_top (n : Nat)
    (b : Option (Nat × Nat × Int × Int × ℚ)) (m : Nat) (xy : Nat × Nat) :
    (process_candidate n ⟨⊤, b, m⟩ xy).best_result.isSome = true := by
  simp only [process_candidate]
  rw [if_pos (WithTop.coe_lt_top _)]
  rfl

theorem foldl_process_count (n : Nat) :
    ∀ (l : List (Nat × Nat)) (st : SearchState),
      (l.foldl (process_candidate n) st).combinations_checked
        = st.combinations_checked + l.length := by
  intro l
  induction l with
  | nil => intro st; simp
  | cons c t ih =>
    intro st
    rw [List.foldl_cons, ih, process_candidate_count, List.length_cons]
    omega

theorem foldl_process_best_le (n : Nat) :
    ∀ (l : List (Nat × Nat)) (st : SearchState),
      (l.foldl (process_candidate n) st).best_relative_miss
        ≤ st.best_relative_miss := by
  intro l
  induction l with
  | nil => intro st; exact le_rfl
  | cons c t ih =>
    intro st
    rw [List.foldl_cons]
    exact le_trans (ih _) (process_candidate_best_le n st c)

theorem foldl_process_le_of_mem (n : Nat) :
    ∀ (l : List (Nat × Nat)) (st : SearchState) (xy : Nat × Nat), xy ∈ l →
      (l.foldl (process_candidate n) st).best_relative_miss
        ≤ ((candidate_rel_miss n xy.1 xy.2 : ℚ) : WithTop ℚ) := by
  intro l
  induction l with
  | nil => intro st xy h; cases h
  | cons c t ih =>
    intro st xy h
    rw [List.foldl_cons]
    rcases List.mem_cons.mp h with rfl | hmem
    · exact le_trans (foldl_process_best_le n t _) (process_candidate_le_rel n st xy)
    · exact ih _ xy hmem

theorem foldl_process_isSome (n : Nat) :
    ∀ (l : List (Nat × Nat)) (st : SearchState),
      st.best_result.isSome = true →
      (l.foldl (process_candidate n) st).best_result.isSome = true := by
  intro l
  induction l with
  | nil => intro st h; exact h
  | cons c t ih =>
    intro st h
    rw [List.foldl_cons]
    exact ih _ (process_candidate_isSome n st c h)

theorem length_flatMap_row (m : Nat) :
    ∀ l : List Nat,
      (l.flatMap (fun x => (List.range' 10 m).map (fun y => (x, y)))).length
        = l.length * m := by
  intro l
  induction l with
  | nil => simp
  | cons c t ih =>
    rw [List.flatMap_cons, List.length_append, ih, List.length_map,
      List.length_range', List.length_cons]
    ring

/-! ### Claim theorems: the search driver -/

/-- C5: after `find_near_misses n k` has processed all candidates, the
reported best relative miss is `≤` the relative miss of every enumerated
candidate; and the loop body leaves the best record untouched (only the
counter advances) whenever a candidate's relative miss is not strictly
smaller than the current best. -/
theorem C5_best_tracking (n k : Nat) (hn3 : 3 ≤ n) (hn11 : n ≤ 11)
    (hk : 10 < k) :
    (∀ xy ∈ candidate_list k,
      (find_near_misses n k).best_relative_miss
        ≤ ((candidate_rel_miss n xy.1 xy.2 : ℚ) : WithTop ℚ)) ∧
    (∀ (st : SearchState) (xy : Nat × Nat),
      ¬ (((candidate_rel_miss n xy.1 xy.2 : ℚ) : WithTop ℚ)
          < st.best_relative_miss) →
      process_candidate n st xy
        = ⟨st.best_relative_miss, st.best_result,
            st.combinations_checked + 1⟩) := by
  constructor
  · intro xy hmem
    exact foldl_process_le_of_mem n (candidate_list k) _ xy hmem
  · intro st xy hno
    simp only [candidate_rel_miss] at hno
    simp only [process_candidate]
    rw [if_neg hno]

/-- Witness for C5 at `n = 3`, `k = 11`. -/
theorem C5_witness :
    (3 ≤ 3 ∧ 3 ≤ 11 ∧ 10 < 11) ∧
    ((∀ xy ∈ candidate_list 11,
      (find_near_misses 3 11).best_relative_miss
        ≤ ((candidate_rel_miss 3 xy.1 xy.2 : ℚ) : WithTop ℚ)) ∧
    (∀ (st : SearchState) (xy : Nat × Nat),
      ¬ (((candidate_rel_miss 3 xy.1 xy.2 : ℚ) : WithTop ℚ)
          < st.best_relative_miss) →
      process_candidate 3 st xy
        = ⟨st.best_relative_miss, st.best_result,
            st.combinations_checked + 1⟩)) :=
  ⟨⟨by decide, by decide, by decide⟩,
    C5_best_tracking 3 11 (by decide) (by decide) (by decide)⟩

/-- C6: for every valid `n` and `k > 10`, `find_near_misses n k` always
produces a best record: the "no result" branch is unreachable, because the
grid is non-empty and the first candidate's finite relative miss beats the
infinite sentinel. -/
theorem C6_always_some (n k : Nat) (hn3 : 3 ≤ n) (hn11 : n ≤ 11)
    (hk : 10 < k) :
    (find_near_misses n k).best_result.isSome = true := by
  have hmem : ((10 : Nat), (10 : Nat)) ∈ candidate_list k := by
    simp only [candidate_list, List.mem_flatMap, List.mem_map,
      List.mem_range'_1, Prod.mk.injEq]
    exact ⟨10, ⟨le_rfl, by omega⟩, 10, ⟨le_rfl, by omega⟩, rfl, rfl⟩
  have hne : candidate_list k ≠ [] := by
    intro h
    rw [h] at hmem
    cases hmem
  obtain ⟨c, t, hct⟩ := List.exists_cons_of_ne_nil hne
  unfold find_near_misses
  rw [hct, List.foldl_cons]
  exact foldl_process_isSome n t _ (process_candidate_top n none 0 c)

/-- Witness for C6 at `n = 3`, `k = 11`. -/
theorem C6_witness :
    (3 ≤ 3 ∧ 3 ≤ 11 ∧ 10 < 11) ∧
    (find_near_misses 3 11).best_result.isSome = true :=
  ⟨⟨by decide, by decide, by decide⟩,
    C6_always_some 3 11 (by decide) (by decide) (by decide)⟩

/-- C7: for `k > 10`, the enumeration is the full cross product of
`x ∈ [10, k]` and `y ∈ [10, k]`, and the final `combinations_checked`
counter equals `(k - 9) ^ 2` — every candidate is evaluated, with no early
exit. -/
theorem C7_full_grid (n k : Nat) (hk : 10 < k) :
    (find_near_misses n k).combinations_checked = (k - 9) ^ 2 ∧
    (∀ x y : Nat,
      (x, y) ∈ candidate_list k ↔ 10 ≤ x ∧ x ≤ k ∧ 10 ≤ y ∧ y ≤ k) := by
  constructor
  · unfold find_near_misses
    rw [foldl_process_count]
    simp only [candidate_list]
    rw [length_flatMap_row, List.length_range']
    rw [pow_two]
    omega
  · intro x y
    simp only [candidate_list, List.mem_flatMap, List.mem_map,
      List.mem_range'_1, Prod.mk.injEq]
    constructor
    · rintro ⟨a, ⟨ha1, ha2⟩, b, ⟨hb1, hb2⟩, rfl, rfl⟩
      omega
    · rintro ⟨h1, h2, h3, h4⟩
      exact ⟨x, ⟨h1, by omega⟩, y, ⟨h3, by omega⟩, rfl, rfl⟩

/-- Witness for C7 at `n = 3`, `k = 11`. -/
theorem C7_witness :
    10 < 11 ∧
    ((find_near_misses 3 11).combinations_checked = (11 - 9) ^ 2 ∧
    (∀ x y : Nat,
      (x, y) ∈ candidate_list 11 ↔ 10 ≤ x ∧ x ≤ 11 ∧ 10 ≤ y ∧ y ≤ 11)) :=
  ⟨by decide, C7_full_grid 3 11 (by decide)⟩

/-- C9: the search result depends only on `(n, k)`: any two runs of
`find_near_misses` with identical inputs yield the same best record, the
same best relative miss, and the same candidate count (the embedding
carries no timing fields). -/
theorem C9_deterministic (n k : Nat) (r1 r2 : SearchState)
    (h1 : r1 = find_near_misses n k) (h2 : r2 = find_near_misses n k) :
    r1.best_result = r2.best_result ∧
    r1.best_relative_miss = r2.best_relative_miss ∧
    r1.combinations_checked = r2.combinations_checked := by
  subst h1
  subst h2
  exact ⟨rfl, rfl, rfl⟩

/-- Witness for C9 at `n = 3`, `k = 11`: two runs compared. -/
theorem C9_witness :
    (find_near_misses 3 11 = find_near_misses 3 11 ∧
      find_near_misses 3 11 = find_near_misses 3 11) ∧
    ((find_near_misses 3 11).best_result
        = (find_near_misses 3 11).best_result ∧
      (find_near_misses 3 11).best_relative_miss
        = (find_near_misses 3 11).best_relative_miss ∧
      (find_near_misses 3 11).combinations_checked
        = (find_near_misses 3 11).combinations_checked) :=
  ⟨⟨rfl, rfl⟩,
    C9_deterministic 3 11 (find_near_misses 3 11) (find_near_misses 3 11)
      rfl rfl⟩
